import Mathlib

/-!
Verification of the image compression pipeline (dimension planning,
batch processing, archive assembly) of the `compressing` repository.

The definitions below are a shallow embedding of the JavaScript source:
`compressImage` / `COMPRESSION_PRESETS` from the base64 image storage
utility, `processBatchImages` / `createZipFromImages` from
`imageBatchProcessor.js`, and the `preserveDimensions` handler of
`CompressionSettings.jsx`.  JavaScript numbers are modelled by exact
rationals; `Math.round` is `⌊x + 1/2⌋` (round half toward +∞), which is
what JavaScript computes.
-/

namespace Compressing

/-- JavaScript `Math.round`: round half toward positive infinity. -/
def jsRound (q : ℚ) : ℤ := (q + 1/2).floor

theorem jsRound_eq_floor (q : ℚ) : jsRound q = ⌊q + 1/2⌋ := by
  rw [jsRound, Rat.floor_def, Rat.floor_def']

/-- The compression options object consumed by `compressImage`, with the
defaults destructured at the top of the function
(`maxWidth = 800, maxHeight = 800, quality = 0.8, format = 'image/jpeg',
maintainAspectRatio = true`). -/
structure CompressOptions where
  maxWidth : Nat := 800
  maxHeight : Nat := 800
  quality : ℚ := 8/10
  format : String := "image/jpeg"
  maintainAspectRatio : Bool := true
deriving Repr, DecidableEq

/-- The dimension-planning step of `compressImage` (lines 91–122 of the
canvas-based implementation): start from the original size, and resize
only when `maxWidth > 0 && maxHeight > 0 && maxWidth < 9999 &&
maxHeight < 9999`; inside that guard, either the aspect-preserving
two-pass clamp or the independent per-axis clamp. -/
def plan (originalWidth originalHeight : Nat) (opts : CompressOptions) : ℤ × ℤ :=
  if 0 < opts.maxWidth ∧ 0 < opts.maxHeight ∧ opts.maxWidth < 9999 ∧ opts.maxHeight < 9999 then
    if opts.maintainAspectRatio then
      let aspectRatio : ℚ := (originalWidth : ℚ) / (originalHeight : ℚ)
      if opts.maxWidth < originalWidth ∨ opts.maxHeight < originalHeight then
        if originalHeight < originalWidth then
          let newWidth : ℤ := (min originalWidth opts.maxWidth : Nat)
          let newHeight : ℤ := jsRound ((newWidth : ℚ) / aspectRatio)
          if (opts.maxHeight : ℤ) < newHeight then
            (jsRound ((opts.maxHeight : ℚ) * aspectRatio), (opts.maxHeight : ℤ))
          else
            (newWidth, newHeight)
        else
          let newHeight : ℤ := (min originalHeight opts.maxHeight : Nat)
          let newWidth : ℤ := jsRound ((newHeight : ℚ) * aspectRatio)
          if (opts.maxWidth : ℤ) < newWidth then
            ((opts.maxWidth : ℤ), jsRound ((opts.maxWidth : ℚ) / aspectRatio))
          else
            (newWidth, newHeight)
      else
        ((originalWidth : ℤ), (originalHeight : ℤ))
    else
      (((min originalWidth opts.maxWidth : Nat) : ℤ), ((min originalHeight opts.maxHeight : Nat) : ℤ))
  else
    ((originalWidth : ℤ), (originalHeight : ℤ))

/-- The `preserveDimensions` checkbox handler of `CompressionSettings.jsx`
(lines 96–110): checking the box sets `maxWidth`/`maxHeight` to 9999,
unchecking resets them to 800. -/
def applyPreserveDimensions (preserve : Bool) (opts : CompressOptions) : CompressOptions :=
  if preserve then
    { opts with maxWidth := 9999, maxHeight := 9999 }
  else
    { opts with maxWidth := 800, maxHeight := 800 }

example : plan 2000 1000 { maxWidth := 800, maxHeight := 800 } = (800, 400) := by
  norm_num [plan, jsRound_eq_floor]
example : plan 1000 2000 { maxWidth := 800, maxHeight := 800 } = (400, 800) := by
  norm_num [plan, jsRound_eq_floor]
example : plan 500 500 { maxWidth := 800, maxHeight := 800 } = (500, 500) := by
  norm_num [plan]
example : plan 5000 1 { maxWidth := 100, maxHeight := 100 } = (100, 0) := by
  norm_num [plan, jsRound_eq_floor]
example : plan 20000 10000 { maxWidth := 9999, maxHeight := 9999 } = (20000, 10000) := by
  norm_num [plan]
example : plan 1000 10 { maxWidth := 105, maxHeight := 105 } = (105, 1) := by
  norm_num [plan, jsRound_eq_floor]

/-! ### Arithmetic facts about `jsRound` -/

theorem jsRound_nonneg {q : ℚ} (hq : 0 ≤ q) : 0 ≤ jsRound q := by
  rw [jsRound_eq_floor]
  exact Int.le_floor.mpr (by push_cast; linarith)

theorem abs_jsRound_sub (q : ℚ) : |(jsRound q : ℚ) - q| ≤ 1/2 := by
  rw [jsRound_eq_floor]
  have h1 : ((⌊q + 1/2⌋ : ℤ) : ℚ) ≤ q + 1/2 := Int.floor_le _
  have h2 : q + 1/2 < (⌊q + 1/2⌋ : ℚ) + 1 := Int.lt_floor_add_one _
  rw [abs_le]
  constructor <;> linarith

theorem abs_jsRound_mul_sub {q c : ℚ} (hc : 0 ≤ c) :
    |(jsRound q : ℚ) * c - q * c| ≤ c / 2 := by
  have h := abs_jsRound_sub q
  calc |(jsRound q : ℚ) * c - q * c| = |(jsRound q : ℚ) - q| * |c| := by
        rw [← abs_mul]; ring_nf
    _ ≤ (1/2) * c := by
        rw [abs_of_nonneg hc]
        exact mul_le_mul_of_nonneg_right h hc
    _ = c / 2 := by ring

end Compressing


namespace Compressing

/-- The two-pass clamp's key inequality: if rounding `a / ρ` overshoots `b`
(with `ρ ≥ 1`), then rounding `b * ρ` stays at or below `⌊a⌋`. -/
theorem jsRound_swap {ρ a b : ℚ} (hρ : 1 ≤ ρ)
    (hb : b + 1 ≤ (jsRound (a / ρ) : ℚ)) : jsRound (b * ρ) ≤ ⌊a⌋ := by
  have hρ0 : 0 < ρ := lt_of_lt_of_le zero_lt_one hρ
  have h0 : (jsRound (a / ρ) : ℚ) ≤ a / ρ + 1/2 := by
    rw [jsRound_eq_floor]; exact_mod_cast Int.floor_le (a / ρ + 1/2)
  have h1 : b + 1/2 ≤ a / ρ := by linarith
  have h2 : (b + 1/2) * ρ ≤ a := by
    rw [← le_div_iff₀ hρ0]; exact h1
  have h3 : b * ρ + 1/2 ≤ a := by nlinarith
  rw [jsRound_eq_floor]
  exact Int.floor_le_floor h3

theorem plan_aspect_bounds (w h : Nat) (opts : CompressOptions)
    (hw : 0 < w) (hh : 0 < h)
    (hW : 0 < opts.maxWidth) (hH : 0 < opts.maxHeight)
    (hW9 : opts.maxWidth < 9999) (hH9 : opts.maxHeight < 9999)
    (hA : opts.maintainAspectRatio = true) :
    (plan w h opts).1 ≤ (opts.maxWidth : ℤ) ∧
    (plan w h opts).2 ≤ (opts.maxHeight : ℤ) ∧
    |((plan w h opts).1 : ℚ) * (h : ℚ) - ((plan w h opts).2 : ℚ) * (w : ℚ)|
      ≤ (max (w : ℚ) (h : ℚ)) / 2 := by
  have hwq : (0:ℚ) < w := by exact_mod_cast hw
  have hhq : (0:ℚ) < h := by exact_mod_cast hh
  have hg : 0 < opts.maxWidth ∧ 0 < opts.maxHeight ∧ opts.maxWidth < 9999 ∧ opts.maxHeight < 9999 :=
    ⟨hW, hH, hW9, hH9⟩
  simp only [plan, if_pos hg, hA, eq_self_iff_true, if_true]
  push_cast
  by_cases hcond : opts.maxWidth < w ∨ opts.maxHeight < h
  · rw [if_pos hcond]
    by_cases horient : h < w
    · -- landscape branch
      rw [if_pos horient]
      have hwhq : (h:ℚ) ≤ (w:ℚ) := by exact_mod_cast le_of_lt horient
      have hρ : (1:ℚ) ≤ (w:ℚ) / (h:ℚ) := by
        rw [le_div_iff₀ hhq, one_mul]; exact hwhq
      have hmaxq : max (w:ℚ) (h:ℚ) = (w:ℚ) := max_eq_left hwhq
      split_ifs with hclamp
      · -- second-pass re-clamp
        refine ⟨?_, ?_, ?_⟩ <;> dsimp only <;> push_cast
        · have hb : (opts.maxHeight : ℚ) + 1 ≤
              (jsRound ((min (w:ℚ) (opts.maxWidth:ℚ)) / ((w:ℚ) / (h:ℚ))) : ℚ) := by
            have := Int.add_one_le_of_lt hclamp
            exact_mod_cast this
          have hsw := jsRound_swap hρ hb
          rw [← Nat.cast_min, Int.floor_natCast] at hsw
          calc jsRound ((opts.maxHeight : ℚ) * ((w:ℚ) / (h:ℚ)))
              ≤ ((min w opts.maxWidth : Nat) : ℤ) := hsw
            _ ≤ (opts.maxWidth : ℤ) := by exact_mod_cast Nat.min_le_right w opts.maxWidth
        · exact le_refl _
        · rw [hmaxq]
          have hq : ((opts.maxHeight:ℚ) * ((w:ℚ)/(h:ℚ))) * (h:ℚ) = (opts.maxHeight:ℚ) * (w:ℚ) := by
            field_simp
          have hcross := abs_jsRound_mul_sub (q := (opts.maxHeight:ℚ) * ((w:ℚ)/(h:ℚ)))
            (c := (h:ℚ)) (le_of_lt hhq)
          rw [hq] at hcross
          calc |(jsRound ((opts.maxHeight:ℚ) * ((w:ℚ)/(h:ℚ))) : ℚ) * (h:ℚ) -
                (opts.maxHeight:ℚ) * (w:ℚ)| ≤ (h:ℚ)/2 := hcross
            _ ≤ (w:ℚ)/2 := by linarith
      · -- first pass already fits
        push_neg at hclamp
        refine ⟨?_, hclamp, ?_⟩ <;> dsimp only <;> push_cast
        · exact_mod_cast min_le_right (w:ℤ) (opts.maxWidth:ℤ)
        · rw [hmaxq]
          have hq : ((min (w:ℚ) (opts.maxWidth:ℚ)) / ((w:ℚ)/(h:ℚ))) * (w:ℚ)
              = (min (w:ℚ) (opts.maxWidth:ℚ)) * (h:ℚ) := by
            field_simp
          have hcross := abs_jsRound_mul_sub
            (q := (min (w:ℚ) (opts.maxWidth:ℚ)) / ((w:ℚ)/(h:ℚ))) (c := (w:ℚ)) (le_of_lt hwq)
          rw [hq] at hcross
          rw [abs_sub_comm]
          exact hcross
    · -- portrait / square branch
      rw [if_neg horient]
      have hwh : w ≤ h := le_of_not_lt horient
      have hwhq : (w:ℚ) ≤ (h:ℚ) := by exact_mod_cast hwh
      have hρ : (1:ℚ) ≤ (h:ℚ) / (w:ℚ) := by
        rw [le_div_iff₀ hwq, one_mul]; exact hwhq
      have hmaxq : max (w:ℚ) (h:ℚ) = (h:ℚ) := max_eq_right hwhq
      split_ifs with hclamp
      · -- second-pass re-clamp
        refine ⟨?_, ?_, ?_⟩ <;> dsimp only <;> push_cast
        · exact le_refl _
        · have hrw : (min (h:ℚ) (opts.maxHeight:ℚ)) * ((w:ℚ)/(h:ℚ))
              = (min (h:ℚ) (opts.maxHeight:ℚ)) / ((h:ℚ)/(w:ℚ)) := by
            rw [div_div_eq_mul_div, ← mul_div_assoc]
          have hb : (opts.maxWidth : ℚ) + 1 ≤
              (jsRound ((min (h:ℚ) (opts.maxHeight:ℚ)) / ((h:ℚ) / (w:ℚ))) : ℚ) := by
            rw [← hrw]
            have := Int.add_one_le_of_lt hclamp
            exact_mod_cast this
          have hsw := jsRound_swap hρ hb
          rw [← Nat.cast_min, Int.floor_natCast] at hsw
          have hrw2 : (opts.maxWidth : ℚ) / ((w:ℚ)/(h:ℚ)) = (opts.maxWidth : ℚ) * ((h:ℚ)/(w:ℚ)) := by
            rw [div_div_eq_mul_div, ← mul_div_assoc]
          rw [hrw2]
          calc jsRound ((opts.maxWidth : ℚ) * ((h:ℚ) / (w:ℚ)))
              ≤ ((min h opts.maxHeight : Nat) : ℤ) := hsw
            _ ≤ (opts.maxHeight : ℤ) := by exact_mod_cast Nat.min_le_right h opts.maxHeight
        · rw [hmaxq]
          have hq : ((opts.maxWidth:ℚ) / ((w:ℚ)/(h:ℚ))) * (w:ℚ) = (opts.maxWidth:ℚ) * (h:ℚ) := by
            field_simp
          have hcross := abs_jsRound_mul_sub (q := (opts.maxWidth:ℚ) / ((w:ℚ)/(h:ℚ)))
            (c := (w:ℚ)) (le_of_lt hwq)
          rw [hq] at hcross
          calc |(opts.maxWidth:ℚ) * (h:ℚ) - (jsRound ((opts.maxWidth:ℚ) / ((w:ℚ)/(h:ℚ))) : ℚ) * (w:ℚ)|
              = |(jsRound ((opts.maxWidth:ℚ) / ((w:ℚ)/(h:ℚ))) : ℚ) * (w:ℚ) - (opts.maxWidth:ℚ) * (h:ℚ)| := by
                rw [abs_sub_comm]
            _ ≤ (w:ℚ)/2 := hcross
            _ ≤ (h:ℚ)/2 := by linarith
      · -- first pass already fits
        push_neg at hclamp
        refine ⟨hclamp, ?_, ?_⟩ <;> dsimp only <;> push_cast
        · exact_mod_cast min_le_right (h:ℤ) (opts.maxHeight:ℤ)
        · rw [hmaxq]
          have hq : ((min (h:ℚ) (opts.maxHeight:ℚ)) * ((w:ℚ)/(h:ℚ))) * (h:ℚ)
              = (min (h:ℚ) (opts.maxHeight:ℚ)) * (w:ℚ) := by
            field_simp
          have hcross := abs_jsRound_mul_sub
            (q := (min (h:ℚ) (opts.maxHeight:ℚ)) * ((w:ℚ)/(h:ℚ))) (c := (h:ℚ)) (le_of_lt hhq)
          rw [hq] at hcross
          exact hcross
  · rw [if_neg hcond]
    push_neg at hcond
    refine ⟨?_, ?_, ?_⟩ <;> dsimp only <;> push_cast
    · exact_mod_cast hcond.1
    · exact_mod_cast hcond.2
    · have hz : (w:ℚ) * (h:ℚ) - (h:ℚ) * (w:ℚ) = 0 := by ring
      rw [hz, abs_zero]
      positivity

end Compressing

namespace Compressing

/-- Claim C1, counterexample: with `maintainAspectRatio = true` and the
positive integer box 9999×9999, a 20000×10000 input is not resized at all
(the code only resizes when both maxima are strictly below 9999), so the
planned width 20000 exceeds `maxWidth = 9999`; moreover at 1000×10 with
box 105×105 the planned size is (105, 1), whose ratio 105 differs from
the original ratio 100 by 5 — not a small rounding tolerance.  Both parts
refute the claim as stated. -/
theorem plan_bounds_counterexample :
    (plan 20000 10000 { maxWidth := 9999, maxHeight := 9999 } = (20000, 10000) ∧
      ¬ ((plan 20000 10000 { maxWidth := 9999, maxHeight := 9999 }).1 ≤ ((9999 : ℕ) : ℤ))) ∧
    (plan 1000 10 { maxWidth := 105, maxHeight := 105 } = (105, 1) ∧
      |((plan 1000 10 { maxWidth := 105, maxHeight := 105 }).1 : ℚ) /
          ((plan 1000 10 { maxWidth := 105, maxHeight := 105 }).2 : ℚ) -
        (1000 : ℚ) / (10 : ℚ)| = 5) := by
  refine ⟨⟨by norm_num [plan], by norm_num [plan]⟩, ⟨?_, ?_⟩⟩
  · norm_num [plan, jsRound_eq_floor]
  · have h : plan 1000 10 { maxWidth := 105, maxHeight := 105 } = (105, 1) := by
      norm_num [plan, jsRound_eq_floor]
    rw [h]
    norm_num

/-- Claim C1, amended: for positive original dimensions and maxima with
`0 < maxWidth, maxHeight < 9999` (the only range in which the code
resizes) and `maintainAspectRatio = true`, the planned size satisfies
both bounds, and the aspect ratio is preserved up to rounding in
cross-multiplied form: `|newWidth·height − newHeight·width| ≤ max(width,
height)/2` (at most half a pixel of rounding on the derived axis). -/
theorem plan_aspect_bounds_main (w h : Nat) (opts : CompressOptions)
    (hw : 0 < w) (hh : 0 < h)
    (hW : 0 < opts.maxWidth) (hH : 0 < opts.maxHeight)
    (hW9 : opts.maxWidth < 9999) (hH9 : opts.maxHeight < 9999)
    (hA : opts.maintainAspectRatio = true) :
    (plan w h opts).1 ≤ (opts.maxWidth : ℤ) ∧
    (plan w h opts).2 ≤ (opts.maxHeight : ℤ) ∧
    |((plan w h opts).1 : ℚ) * (h : ℚ) - ((plan w h opts).2 : ℚ) * (w : ℚ)|
      ≤ (max (w : ℚ) (h : ℚ)) / 2 :=
  plan_aspect_bounds w h opts hw hh hW hH hW9 hH9 hA

/-- Claim C1, witness: the amended bound instantiated at a 2000×1000 image
with an 800×800 box. -/
theorem plan_aspect_bounds_witness :
    (plan 2000 1000 { maxWidth := 800, maxHeight := 800 }).1 ≤ ((800 : ℕ) : ℤ) ∧
    (plan 2000 1000 { maxWidth := 800, maxHeight := 800 }).2 ≤ ((800 : ℕ) : ℤ) ∧
    |((plan 2000 1000 { maxWidth := 800, maxHeight := 800 }).1 : ℚ) * ((1000 : ℕ) : ℚ) -
        ((plan 2000 1000 { maxWidth := 800, maxHeight := 800 }).2 : ℚ) * ((2000 : ℕ) : ℚ)|
      ≤ (max ((2000 : ℕ) : ℚ) ((1000 : ℕ) : ℚ)) / 2 :=
  plan_aspect_bounds_main 2000 1000 { maxWidth := 800, maxHeight := 800 }
    (by norm_num) (by norm_num) (by norm_num) (by norm_num) (by norm_num) (by norm_num) rfl

/-- Claim C2: with `preserveDimensions` checked, the settings handler sets
both maxima to the 9999 sentinel, and for such options the planner
returns the original size unchanged, whatever the previous `maxWidth` and
`maxHeight` were. -/
theorem plan_preserveDimensions (w h : Nat) (opts : CompressOptions) :
    plan w h (applyPreserveDimensions true opts) = ((w : ℤ), (h : ℤ)) := by
  simp [plan, applyPreserveDimensions]

/-- Claim C3: the planner never upscales — on inputs already within the
box it is the identity, in every branch (aspect-preserving, independent
clamp, and the skipped-resize guard). -/
theorem plan_no_upscale (w h : Nat) (opts : CompressOptions)
    (hW : w ≤ opts.maxWidth) (hH : h ≤ opts.maxHeight) :
    plan w h opts = ((w : ℤ), (h : ℤ)) := by
  simp only [plan]
  split_ifs with h1 h2 h3 <;>
    first
      | rfl
      | (exact absurd h3 (by omega))
      | (rw [min_eq_left hW, min_eq_left hH])

/-- Claim C3, witness: a 500×500 image in an 800×800 box is untouched. -/
theorem plan_no_upscale_witness :
    plan 500 500 { maxWidth := 800, maxHeight := 800 } = (((500 : ℕ) : ℤ), ((500 : ℕ) : ℤ)) :=
  plan_no_upscale 500 500 { maxWidth := 800, maxHeight := 800 } (by norm_num) (by norm_num)

/-- Claim C4, counterexample: a 5000×1 image in a 100×100 box is planned
at height `Math.round(100 / 5000) = 0` — the code has no floor at 1, so a
zero pixel dimension is produced from positive input dimensions. -/
theorem plan_zero_counterexample :
    (plan 5000 1 { maxWidth := 100, maxHeight := 100 }).2 = 0 := by
  norm_num [plan, jsRound_eq_floor]

/-- Claim C4, amended: for positive original dimensions the planner never
produces a negative target dimension (rounding is `⌊x + 1/2⌋`, round half
up, which agrees with round-half-away-from-zero on the nonnegative values
occurring here), but zero is possible: there is no floor at 1. -/
theorem plan_nonneg (w h : Nat) (opts : CompressOptions) (hw : 0 < w) (hh : 0 < h) :
    0 ≤ (plan w h opts).1 ∧ 0 ≤ (plan w h opts).2 := by
  simp only [plan]
  split_ifs <;> refine ⟨?_, ?_⟩ <;> dsimp only <;>
    first
      | positivity
      | (apply jsRound_nonneg; positivity)

/-- Claim C4, witness: nonnegativity instantiated at the 5000×1 input. -/
theorem plan_nonneg_witness :
    0 ≤ (plan 5000 1 { maxWidth := 100, maxHeight := 100 }).1 ∧
    0 ≤ (plan 5000 1 { maxWidth := 100, maxHeight := 100 }).2 :=
  plan_nonneg 5000 1 { maxWidth := 100, maxHeight := 100 } (by norm_num) (by norm_num)

end Compressing

namespace Compressing

/-! ### Batch processing (`processBatchImages` of `imageBatchProcessor.js`) -/

/-- One input image object as consumed by `processBatchImages`
(`{file, dataUrl, name, size}`); the payload handed to `compressImage`
(`image.file || image.dataUrl`) is kept abstract in `payload`. -/
structure ImageInput where
  name : Option String := none
  size : Option Nat := none
  payload : String := ""
deriving Repr, DecidableEq

/-- The fields of a successful `compressImage` result that the batch
processor reads (`result.base64`, `result.originalSize`); the rest of the
stats object travels unchanged inside the `stats` slot. -/
structure CompressResult where
  base64 : String
  originalSize : Nat
deriving Repr, DecidableEq

/-- One slot of the array returned by `processBatchImages`; on failure the
code omits `originalSize`, modelled by `none`. -/
structure BatchItemResult where
  originalName : Option String
  fileName : Option String
  dataUrl : Option String
  originalSize : Option Nat
  stats : Option CompressResult
  success : Bool
  error : Option String
deriving Repr, DecidableEq

/-- Effect of the regex replace `originalName.replace(/\.[^/.]+$/, '')` on
a character list: the regex matches exactly when the text after the last
dot is nonempty and contains neither `/` nor `.`, and the match (that dot
and everything after it) is removed; otherwise the name is unchanged. -/
def stripExtChars (s : List Char) : List Char :=
  let tk := s.reverse.takeWhile (fun c => c != '.' && c != '/')
  let rest := s.reverse.dropWhile (fun c => c != '.' && c != '/')
  match rest with
  | '.' :: rest2 => if tk.isEmpty then s else rest2.reverse
  | _ => s

/-- String version of `stripExtChars`. -/
def stripExt (s : String) : String := ⟨stripExtChars s.data⟩

example : stripExt "photo.jpeg" = "photo" := by decide
example : stripExt "archive.tar.gz" = "archive.tar" := by decide
example : stripExt "noext" = "noext" := by decide
example : stripExt "dir/file" = "dir/file" := by decide
example : stripExt "odd." = "odd." := by decide

/-- Extension chosen by `processBatchImages` from the configured format
(`png`/`webp`/else `jpg`; a missing format falls back to `image/jpeg`,
which also lands in the `jpg` arm). -/
def extensionFor (format : String) : String :=
  if format = "image/png" then "png"
  else if format = "image/webp" then "webp"
  else "jpg"

/-- Fallback name for an image without a name: `image_${i + 1}`. -/
def defaultName (i : Nat) : String := "image_" ++ toString (i + 1)

/-- The `image.name || image_${i+1}` defaulting (the empty string is falsy
in JavaScript). -/
def effectiveName (name : Option String) (i : Nat) : String :=
  match name with
  | some s => if s = "" then defaultName i else s
  | none => defaultName i

/-- The body of one iteration of the `processBatchImages` loop: compress
(outcome supplied by the `comp` oracle), derive the output filename, and
build the success or failure record exactly as the code pushes it. -/
def processItem (comp : ImageInput → Except String CompressResult)
    (opts : CompressOptions) (i : Nat) (image : ImageInput) : BatchItemResult :=
  match comp image with
  | .ok result =>
      let extension := extensionFor opts.format
      let originalName := effectiveName image.name i
      let compressedFileName := stripExt originalName ++ "." ++ extension
      { originalName := image.name
        fileName := some compressedFileName
        dataUrl := some result.base64
        originalSize := some (match image.size with
          | some n => if n = 0 then result.originalSize else n
          | none => result.originalSize)
        stats := some result
        success := true
        error := none }
  | .error e =>
      { originalName := image.name
        fileName := none
        dataUrl := none
        originalSize := none
        stats := none
        success := false
        error := some e }

/-- The `for` loop of `processBatchImages`, carrying the running index. -/
def processBatchAux (comp : ImageInput → Except String CompressResult)
    (opts : CompressOptions) : Nat → List ImageInput → List BatchItemResult
  | _, [] => []
  | i, image :: rest => processItem comp opts i image :: processBatchAux comp opts (i + 1) rest

/-- `processBatchImages(images, compressionOptions, onProgress)`: one
result per input, in input order; a thrown compression error becomes a
failure record and the loop continues. -/
def processBatchImages (comp : ImageInput → Except String CompressResult)
    (images : List ImageInput) (opts : CompressOptions) : List BatchItemResult :=
  processBatchAux comp opts 0 images

/-- Events observable while `processBatchImages` runs with a progress
callback supplied: the `onProgress(i + 1, images.length)` call made at the
top of each loop iteration, and the completion of that item (its result
being pushed, successfully or not). -/
inductive BatchEvent where
  | progress (current total : Nat)
  | itemDone (index : Nat) (success : Bool)
deriving Repr, DecidableEq

/-- Trace of one loop iteration after the other: the code calls
`onProgress(i + 1, total)` first, then awaits the compression and pushes
the item's result. -/
def batchTraceAux (comp : ImageInput → Except String CompressResult)
    (total : Nat) : Nat → List ImageInput → List BatchEvent
  | _, [] => []
  | i, image :: rest =>
      .progress (i + 1) total :: .itemDone i (comp image).isOk ::
        batchTraceAux comp total (i + 1) rest

/-- Full event trace of `processBatchImages` with a callback present. -/
def batchTrace (comp : ImageInput → Except String CompressResult)
    (images : List ImageInput) : List BatchEvent :=
  batchTraceAux comp images.length 0 images

/-- The progress invocations of a trace, in order. -/
def progressEvents (tr : List BatchEvent) : List (Nat × Nat) :=
  tr.filterMap (fun e => match e with
    | .progress c t => some (c, t)
    | .itemDone _ _ => none)

end Compressing

namespace Compressing

theorem processBatchAux_get? (comp : ImageInput → Except String CompressResult)
    (opts : CompressOptions) (l : List ImageInput) :
    ∀ start i : Nat, (processBatchAux comp opts start l).get? i
      = (l.get? i).map (fun img => processItem comp opts (start + i) img) := by
  induction l with
  | nil => intro start i; simp [processBatchAux]
  | cons im rest ih =>
      intro start i
      cases i with
      | zero => simp [processBatchAux]
      | succ i =>
          simp only [processBatchAux, List.get?_cons_succ]
          rw [ih (start + 1) i]
          have harith : start + 1 + i = start + (i + 1) := by omega
          rw [harith]

theorem processBatchAux_length (comp : ImageInput → Except String CompressResult)
    (opts : CompressOptions) (l : List ImageInput) :
    ∀ start : Nat, (processBatchAux comp opts start l).length = l.length := by
  induction l with
  | nil => intro start; rfl
  | cons im rest ih => intro start; simp [processBatchAux, ih (start + 1)]

/-- Claim C5: for every oracle of per-item outcomes, `processBatchImages`
returns as many results as inputs; slot `i` is exactly the record built
from input `i` alone (so failures elsewhere cannot disturb it); and a slot
whose compression threw holds `success = false` with that error message,
while every other slot is still produced. -/
theorem processBatch_shape (comp : ImageInput → Except String CompressResult)
    (images : List ImageInput) (opts : CompressOptions) :
    (processBatchImages comp images opts).length = images.length ∧
    (∀ i : Nat, (processBatchImages comp images opts).get? i
        = (images.get? i).map (fun img => processItem comp opts i img)) ∧
    (∀ i img e, images.get? i = some img → comp img = .error e →
      (processBatchImages comp images opts).get? i = some
        { originalName := img.name, fileName := none, dataUrl := none,
          originalSize := none, stats := none, success := false, error := some e }) := by
  refine ⟨processBatchAux_length comp opts images 0, ?_, ?_⟩
  · intro i
    have h := processBatchAux_get? comp opts images 0 i
    simpa [processBatchImages] using h
  · intro i img e hget herr
    have h := processBatchAux_get? comp opts images 0 i
    rw [processBatchImages, h, hget]
    simp [processItem, herr]

/-- Outcome oracle for concrete witnesses: the image named `corrupt.png`
fails to load, everything else compresses to a fixed small JPEG. -/
def demoComp : ImageInput → Except String CompressResult := fun img =>
  match img.name with
  | some "corrupt.png" => .error "Failed to load image"
  | _ => .ok { base64 := "data:image/jpeg;base64,QUJD", originalSize := 3 }

/-- Three-image batch whose middle item is corrupt. -/
def demoImages : List ImageInput :=
  [{ name := some "a.png", size := some 10, payload := "p1" },
   { name := some "corrupt.png", size := some 20, payload := "p2" },
   { name := some "b.jpg", size := none, payload := "p3" }]

/-- Claim C5, witness: in the three-image demo batch with a corrupt middle
item, slot 1 records the failure with its message. -/
theorem processBatch_shape_witness :
    (processBatchImages demoComp demoImages { }).get? 1 = some
      { originalName := some "corrupt.png", fileName := none, dataUrl := none,
        originalSize := none, stats := none, success := false,
        error := some "Failed to load image" } :=
  (processBatch_shape demoComp demoImages { }).2.2 1
    { name := some "corrupt.png", size := some 20, payload := "p2" } "Failed to load image" rfl rfl

theorem progressEvents_cons_progress (c t : Nat) (tr : List BatchEvent) :
    progressEvents (.progress c t :: tr) = (c, t) :: progressEvents tr := rfl

theorem progressEvents_cons_done (i : Nat) (s : Bool) (tr : List BatchEvent) :
    progressEvents (.itemDone i s :: tr) = progressEvents tr := rfl

theorem progressEvents_batchTraceAux (comp : ImageInput → Except String CompressResult)
    (total : Nat) (l : List ImageInput) :
    ∀ start : Nat, progressEvents (batchTraceAux comp total start l)
      = (List.range l.length).map (fun k => (start + k + 1, total)) := by
  induction l with
  | nil => intro start; rfl
  | cons im rest ih =>
      intro start
      have hfun : ((fun k => (start + k + 1, total)) ∘ fun k => k + 1)
          = (fun k => (start + 1 + k + 1, total)) := by
        funext k
        show (start + (k + 1) + 1, total) = (start + 1 + k + 1, total)
        have harith : start + (k + 1) + 1 = start + 1 + k + 1 := by omega
        rw [harith]
      simp only [batchTraceAux, progressEvents_cons_progress, progressEvents_cons_done,
        ih (start + 1), List.length_cons, List.range_succ_eq_map, List.map_cons, List.map_map]
      rw [hfun]

theorem batchTraceAux_get (comp : ImageInput → Except String CompressResult)
    (total : Nat) (l : List ImageInput) :
    ∀ (start k : Nat) (img : ImageInput), l.get? k = some img →
      (batchTraceAux comp total start l).get? (2 * k)
        = some (.progress (start + k + 1) total) ∧
      (batchTraceAux comp total start l).get? (2 * k + 1)
        = some (.itemDone (start + k) (comp img).isOk) := by
  induction l with
  | nil => intro start k img h; simp at h
  | cons im rest ih =>
      intro start k img h
      cases k with
      | zero =>
          simp only [List.get?_cons_zero, Option.some.injEq] at h
          subst h
          refine ⟨?_, ?_⟩ <;> simp [batchTraceAux]
      | succ k =>
          have h' : rest.get? k = some img := h
          obtain ⟨ih1, ih2⟩ := ih (start + 1) k img h'
          have e1 : 2 * (k + 1) = 2 * k + 1 + 1 := by ring
          have e2 : 2 * (k + 1) + 1 = 2 * k + 1 + 1 + 1 := by ring
          have a1 : start + 1 + k + 1 = start + (k + 1) + 1 := by omega
          have a2 : start + 1 + k = start + (k + 1) := by omega
          rw [a1] at ih1
          rw [a2] at ih2
          refine ⟨?_, ?_⟩
          · rw [e1]
            simp only [batchTraceAux, List.get?_cons_succ]
            exact ih1
          · rw [e2]
            simp only [batchTraceAux, List.get?_cons_succ]
            exact ih2

/-- Statement that every progress invocation for an item comes after that
item is accounted for (its `itemDone` event precedes it in the trace). -/
def progressAfterItems (tr : List BatchEvent) : Prop :=
  ∀ j k c t i s, tr.get? j = some (.progress c t) → tr.get? k = some (.itemDone i s) →
    c = i + 1 → k < j

/-- Claim C6, counterexample: in a one-image batch the trace is
`[progress 1 1, itemDone 0]` — the progress invocation for the item comes
before the item is accounted for, not after as the claim states (the code
calls `onProgress(i + 1, total)` at the top of the loop body, before
`await compressImage`). -/
theorem batch_progress_counterexample :
    batchTrace demoComp [{ name := some "a.png", size := some 10, payload := "p1" }]
        = [.progress 1 1, .itemDone 0 true] ∧
    ¬ progressAfterItems
        (batchTrace demoComp [{ name := some "a.png", size := some 10, payload := "p1" }]) := by
  constructor
  · rfl
  · intro hcl
    have h := hcl 0 1 1 1 0 true rfl rfl rfl
    omega

/-- Claim C6, amended: with a callback supplied, the progress invocations
are exactly `(1, n), (2, n), …, (n, n)` — first components strictly
increasing, exactly `n` invocations all with second component `n`, final
invocation `(n, n)` — and the invocation for item `k` sits at trace
position `2k`, immediately BEFORE that item's completion at `2k + 1`
(not after it). -/
theorem batch_progress_spec (comp : ImageInput → Except String CompressResult)
    (images : List ImageInput) :
    progressEvents (batchTrace comp images)
      = (List.range images.length).map (fun k => (k + 1, images.length)) ∧
    (progressEvents (batchTrace comp images)).length = images.length ∧
    List.Pairwise (fun p q : Nat × Nat => p.1 < q.1) (progressEvents (batchTrace comp images)) ∧
    (∀ p ∈ progressEvents (batchTrace comp images), p.2 = images.length) ∧
    (0 < images.length →
      (progressEvents (batchTrace comp images)).getLast? = some (images.length, images.length)) ∧
    (∀ k img, images.get? k = some img →
      (batchTrace comp images).get? (2 * k) = some (.progress (k + 1) images.length) ∧
      (batchTrace comp images).get? (2 * k + 1) = some (.itemDone k (comp img).isOk)) := by
  have hev : progressEvents (batchTrace comp images)
      = (List.range images.length).map (fun k => (k + 1, images.length)) := by
    have h := progressEvents_batchTraceAux comp images.length images 0
    simpa [batchTrace] using h
  refine ⟨hev, ?_, ?_, ?_, ?_, ?_⟩
  · rw [hev]; simp
  · rw [hev]
    refine List.pairwise_map.mpr ?_
    exact (List.pairwise_lt_range images.length).imp (fun hab => Nat.succ_lt_succ hab)
  · rw [hev]
    intro p hp
    obtain ⟨k, hk, rfl⟩ := List.mem_map.mp hp
    rfl
  · intro hn
    rw [hev]
    obtain ⟨m, hm⟩ : ∃ m, images.length = m + 1 := ⟨images.length - 1, by omega⟩
    rw [hm, List.range_succ, List.map_append]
    simp [List.getLast?_concat]
  · intro k img h
    have hg := batchTraceAux_get comp images.length images 0 k img h
    simpa [batchTrace] using hg

/-- Claim C6, witness: the amended statement evaluated on the three-image
demo batch — the progress list is `(1,3), (2,3), (3,3)` and the tick for
item 1 sits at trace position 2. -/
theorem batch_progress_spec_witness :
    progressEvents (batchTrace demoComp demoImages)
      = (List.range demoImages.length).map (fun k => (k + 1, demoImages.length)) ∧
    (batchTrace demoComp demoImages).get? 2
      = some (.progress 2 demoImages.length) :=
  ⟨(batch_progress_spec demoComp demoImages).1,
   ((batch_progress_spec demoComp demoImages).2.2.2.2.2 1
      { name := some "corrupt.png", size := some 20, payload := "p2" } rfl).1⟩

end Compressing

namespace Compressing

/-! ### Archive assembly (`createZipFromImages` of `imageBatchProcessor.js`) -/

/-- One entry of the JSZip archive: a name and its decoded bytes. -/
structure ZipEntry where
  name : String
  data : List Nat
deriving Repr, DecidableEq

/-- JSZip's `zip.file(name, data)`: entries live in an object keyed by
name, so adding under an existing name replaces that entry's content in
place (JavaScript objects keep the original key position), while a fresh
name is appended. -/
def zipFile (entries : List ZipEntry) (name : String) (data : List Nat) : List ZipEntry :=
  if entries.any (fun e => e.name == name) then
    entries.map (fun e => if e.name = name then { name := name, data := data } else e)
  else
    entries ++ [{ name := name, data := data }]

/-- Value of one base64 alphabet character. -/
def b64Val (c : Char) : Option Nat :=
  if 'A' ≤ c ∧ c ≤ 'Z' then some (c.toNat - 'A'.toNat)
  else if 'a' ≤ c ∧ c ≤ 'z' then some (c.toNat - 'a'.toNat + 26)
  else if '0' ≤ c ∧ c ≤ '9' then some (c.toNat - '0'.toNat + 52)
  else if c = '+' then some 62
  else if c = '/' then some 63
  else none

/-- Bit accumulator turning 6-bit values into bytes (trailing bits that do
not fill a byte are dropped, as `atob` does). -/
def b64Bytes : List Nat → Nat → Nat → List Nat
  | [], _, _ => []
  | v :: vs, acc, bits =>
      let acc2 := acc * 64 + v
      let bits2 := bits + 6
      if 8 ≤ bits2 then
        (acc2 / 2 ^ (bits2 - 8)) :: b64Bytes vs (acc2 % 2 ^ (bits2 - 8)) (bits2 - 8)
      else
        b64Bytes vs acc2 bits2

/-- Strip up to two trailing `=` padding characters. -/
def dropTrailingEq (l : List Char) : List Char :=
  match l.reverse with
  | '=' :: '=' :: rest => rest.reverse
  | '=' :: rest => rest.reverse
  | _ => l

/-- Model of `atob` (the forgiving-base64 decoder): ASCII whitespace is
removed; when the length is then a multiple of four up to two trailing
`=` are allowed; a remainder-1 length or any character outside the
alphabet throws (`none`); otherwise the 6-bit values are packed into
bytes. -/
def atobBytes (s : String) : Option (List Nat) :=
  let chars := s.data.filter (fun c =>
    !(c == ' ' || c == '\t' || c == '\n' || c == '\r' || c == '\x0c'))
  let chars2 := if chars.length % 4 = 0 then dropTrailingEq chars else chars
  if chars2.length % 4 = 1 then none
  else (chars2.mapM b64Val).map (fun vs => b64Bytes vs 0 0)

example : atobBytes "QUJD" = some [65, 66, 67] := by decide
example : atobBytes "QUJE" = some [65, 66, 68] := by decide
example : atobBytes "QQ==" = some [65] := by decide
example : atobBytes "%%!!" = none := by decide
example : atobBytes "undefined" = none := by decide

/-- JavaScript `String.prototype.split` on a one-character separator,
over character lists (structural, so concrete instances evaluate). -/
def splitChars (sep : Char) : List Char → List (List Char)
  | [] => [[]]
  | c :: rest =>
      match splitChars sep rest with
      | [] => [[c]]
      | g :: gs => if c = sep then [] :: g :: gs else (c :: g) :: gs

example : (splitChars ',' "a,b,c".data).map (fun l => (⟨l⟩ : String)) = ["a", "b", "c"] := by decide
example : (splitChars ',' "abc".data).map (fun l => (⟨l⟩ : String)) = ["abc"] := by decide

/-- `s.split(',')[1]`: the part between the first and second comma,
`none` when the string has no comma. -/
def splitCommaSecond (s : String) : Option String :=
  match splitChars ',' s.data with
  | _ :: p :: _ => some ⟨p⟩
  | _ => none

/-- Bytes produced for one result by the loop body of
`createZipFromImages`: `result.dataUrl.split(',')[1]` is decoded with
`atob`; when there is no comma the JavaScript `undefined` is coerced to
the string `"undefined"`, which `atob` rejects. -/
def resultBytes (r : BatchItemResult) : Option (List Nat) :=
  match r.dataUrl with
  | none => none
  | some du =>
      match splitCommaSecond du with
      | none => atobBytes "undefined"
      | some payload => atobBytes payload

/-- JavaScript truthiness of the `result.dataUrl` guard operand. -/
def truthyDataUrl (o : Option String) : Bool :=
  match o with
  | none => false
  | some s => s != ""

/-- One iteration of the entry-adding loop of `createZipFromImages`: only
results with `result.success && result.dataUrl` are considered; their
payload is base64-decoded and stored under `result.fileName`; a decode
error is logged to the console and the entry skipped. -/
def addResultToZip (entries : List ZipEntry) (r : BatchItemResult) : List ZipEntry :=
  if r.success && truthyDataUrl r.dataUrl then
    match resultBytes r with
    | some bytes => zipFile entries (r.fileName.getD "null") bytes
    | none => entries
  else
    entries

/-- The set of entries of the archive returned by `createZipFromImages`
(the zip container is then always generated, with DEFLATE level 6). -/
def createZipEntries (results : List BatchItemResult) : List ZipEntry :=
  results.foldl addResultToZip []

end Compressing

namespace Compressing

/-- A failed transform result, as `processBatchImages` records it. -/
def failedResult : BatchItemResult :=
  { originalName := some "corrupt.png", fileName := none, dataUrl := none,
    originalSize := none, stats := none, success := false, error := some "Failed to load image" }

/-- A successful result whose derived name is `a.jpg` and whose payload
decodes to the bytes `ABC`. -/
def successA : BatchItemResult :=
  { originalName := some "a.png", fileName := some "a.jpg",
    dataUrl := some "data:image/jpeg;base64,QUJD",
    originalSize := some 10, stats := some { base64 := "data:image/jpeg;base64,QUJD", originalSize := 3 },
    success := true, error := none }

/-- A second successful result also named `a.jpg`, with different bytes
(`ABD`). -/
def successB : BatchItemResult :=
  { originalName := some "a.jpeg", fileName := some "a.jpg",
    dataUrl := some "data:image/jpeg;base64,QUJE",
    originalSize := some 12, stats := some { base64 := "data:image/jpeg;base64,QUJE", originalSize := 3 },
    success := true, error := none }

/-- A result marked successful whose payload is not valid base64. -/
def badSuccess : BatchItemResult :=
  { originalName := some "bad.png", fileName := some "bad.jpg",
    dataUrl := some "data:image/jpeg;base64,%%!!",
    originalSize := some 9, stats := some { base64 := "data:image/jpeg;base64,%%!!", originalSize := 3 },
    success := true, error := none }

/-- Claim C7, counterexample: on a report whose only entry failed,
`createZipFromImages` does not return any "nothing to archive" failure —
it is a total function that generates the zip container regardless, here
with zero entries (exactly the empty archive the claim rules out). -/
theorem createZip_empty_counterexample :
    createZipEntries [failedResult] = [] := by rfl

theorem foldl_addResult_all_failed (results : List BatchItemResult) :
    ∀ acc, (∀ r ∈ results, r.success = false) → results.foldl addResultToZip acc = acc := by
  induction results with
  | nil => intro acc _; rfl
  | cons r rest ih =>
      intro acc hall
      have hr : r.success = false := hall r (by simp)
      have hrest : ∀ x ∈ rest, x.success = false := fun x hx => hall x (by simp [hx])
      simp only [List.foldl_cons]
      rw [show addResultToZip acc r = acc from by simp [addResultToZip, hr]]
      exact ih acc hrest

/-- Claim C7, amended: when no entry of the report has `success = true`,
`createZipFromImages` returns an archive with zero entries — an empty
archive, not an explicit `EmptyArchive` failure (no such error exists in
the code). -/
theorem createZip_all_failed (results : List BatchItemResult)
    (h : ∀ r ∈ results, r.success = false) : createZipEntries results = [] :=
  foldl_addResult_all_failed results [] h

/-- Claim C7, witness: a two-failure report yields the empty archive. -/
theorem createZip_all_failed_witness :
    createZipEntries [failedResult, failedResult] = [] :=
  createZip_all_failed [failedResult, failedResult] (by decide)

/-- Claim C8, counterexample: two successful entries both named `a.jpg`
(bytes `ABC` and `ABD`) produce a single archive entry holding only the
second item's bytes — `zip.file` keys entries by name, so the later write
silently overwrites the earlier one; no numeric suffix is appended. -/
theorem createZip_collision_counterexample :
    createZipEntries [successA, successB] = [{ name := "a.jpg", data := [65, 66, 68] }] ∧
    (createZipEntries [successA, successB]).length = 1 := by
  constructor
  · rfl
  · rfl

/-- Claim C10: a result marked `success = true` whose payload does not
base64-decode contributes nothing to the archive (the error is only
logged), while every other result is processed exactly as if the bad one
were absent, and the archive is still returned — so it can hold fewer
entries than there are successful results. -/
theorem createZip_skips_undecodable (rs1 rs2 : List BatchItemResult) (r : BatchItemResult)
    (_hs : r.success = true) (hb : resultBytes r = none) :
    createZipEntries (rs1 ++ r :: rs2) = createZipEntries (rs1 ++ rs2) := by
  have key : ∀ acc, addResultToZip acc r = acc := by
    intro acc
    by_cases hc : (r.success && truthyDataUrl r.dataUrl) = true
    · simp [addResultToZip, hc, hb]
    · simp only [addResultToZip]
      rw [if_neg hc]
  simp [createZipEntries, List.foldl_append, key]

/-- Claim C10, witness: adding an undecodable success after `successA`
leaves the archive identical to the one built from `successA` alone. -/
theorem createZip_skips_undecodable_witness :
    createZipEntries [successA, badSuccess] = createZipEntries [successA] :=
  createZip_skips_undecodable [successA] [] badSuccess rfl rfl

end Compressing

namespace Compressing

/-! ### Encoding (`compressImage` lines 124–168: canvas draw and `toDataURL`) -/

/-- A successfully loaded source image: its data URL together with the
dimensions the decoder reports (`img.width`, `img.height`). -/
structure LoadedImage where
  dataUrl : String
  width : Nat
  height : Nat
deriving Repr, DecidableEq

/-- The canvas encode capability (`ctx.drawImage` followed by
`canvas.toDataURL`), kept abstract: it is a function of the source data
URL, the canvas size, the format string, and the optional quality
argument. -/
structure Codec where
  encode : String → ℤ → ℤ → String → Option ℚ → String

/-- The format dispatch of `compressImage` (lines 140–149): PNG is encoded
without the quality argument, JPEG/WebP receive `config.quality`. -/
def encodeStep (codec : Codec) (src : String) (wh : ℤ × ℤ) (opts : CompressOptions) : String :=
  if opts.format = "image/png" then
    codec.encode src wh.1 wh.2 opts.format none
  else
    codec.encode src wh.1 wh.2 opts.format (some opts.quality)

/-- `getBase64Size`: payload after the first comma (the whole string when
there is no comma), times 3/4, `Math.round`ed. -/
def getBase64Size (s : String) : ℤ :=
  let payload := (splitCommaSecond s).getD s
  jsRound ((payload.length : ℚ) * 3 / 4)

/-- The object `compressImage` resolves with (the string-formatted
`compressionRatio` is omitted; it is a function of `originalSize` and
`compressedSize`). -/
structure CompressImageResult where
  base64 : String
  width : ℤ
  height : ℤ
  format : String
  quality : ℚ
  originalSize : ℤ
  compressedSize : ℤ
  originalWidth : Nat
  originalHeight : Nat
deriving Repr, DecidableEq

/-- `compressImage` after the image has loaded: plan the dimensions, draw
and re-encode through the codec, and report sizes. -/
def compressImage (codec : Codec) (img : LoadedImage) (opts : CompressOptions) :
    CompressImageResult :=
  let wh := plan img.width img.height opts
  let compressedDataUrl := encodeStep codec img.dataUrl wh opts
  { base64 := compressedDataUrl
    width := wh.1
    height := wh.2
    format := opts.format
    quality := opts.quality
    originalSize := getBase64Size img.dataUrl
    compressedSize := getBase64Size compressedDataUrl
    originalWidth := img.width
    originalHeight := img.height }

/-- Claim C9: when the format is PNG, the quality setting has no effect on
the output bytes — for any codec, two configs differing only in quality
produce the same `base64`, `compressedSize`, `width` and `height`,
because the quality argument is not passed to the PNG encode. -/
theorem png_quality_ignored (codec : Codec) (img : LoadedImage)
    (opts : CompressOptions) (q1 q2 : ℚ) (hf : opts.format = "image/png") :
    (compressImage codec img { opts with quality := q1 }).base64
      = (compressImage codec img { opts with quality := q2 }).base64 ∧
    (compressImage codec img { opts with quality := q1 }).compressedSize
      = (compressImage codec img { opts with quality := q2 }).compressedSize ∧
    (compressImage codec img { opts with quality := q1 }).width
      = (compressImage codec img { opts with quality := q2 }).width ∧
    (compressImage codec img { opts with quality := q1 }).height
      = (compressImage codec img { opts with quality := q2 }).height := by
  have hplan : plan img.width img.height { opts with quality := q1 }
      = plan img.width img.height { opts with quality := q2 } := rfl
  have hbase : (compressImage codec img { opts with quality := q1 }).base64
      = (compressImage codec img { opts with quality := q2 }).base64 := by
    show encodeStep codec img.dataUrl (plan img.width img.height { opts with quality := q1 })
          { opts with quality := q1 }
        = encodeStep codec img.dataUrl (plan img.width img.height { opts with quality := q2 })
          { opts with quality := q2 }
    rw [hplan]
    dsimp only [encodeStep]
    rw [hf]
    simp
  exact ⟨hbase, congrArg getBase64Size hbase, rfl, rfl⟩

/-- A concrete codec for witnesses: records its arguments in the output
string (in particular whether a quality argument was passed). -/
def demoCodec : Codec :=
  ⟨fun src w h fmt q =>
    src ++ "|" ++ toString w ++ "x" ++ toString h ++ "|" ++ fmt ++
      (match q with
       | some _ => "|lossy"
       | none => "")⟩

/-- Claim C9, witness: a 10×5 PNG at qualities 1/2 and 9/10 produces the
same output string through the demo codec. -/
theorem png_quality_ignored_witness :
    (compressImage demoCodec { dataUrl := "data:image/png;base64,QUJD", width := 10, height := 5 }
        { format := "image/png", quality := 1/2 }).base64
      = (compressImage demoCodec { dataUrl := "data:image/png;base64,QUJD", width := 10, height := 5 }
        { format := "image/png", quality := 9/10 }).base64 :=
  (png_quality_ignored demoCodec
    { dataUrl := "data:image/png;base64,QUJD", width := 10, height := 5 }
    { format := "image/png" } (1/2) (9/10) rfl).1

end Compressing

namespace Compressing

/-- The contributions the `createZipFromImages` loop makes to the archive,
in report order: for each result passing the `success && dataUrl` guard
whose payload decodes, the pair of its `zip.file` name and bytes. -/
def zipContribs (rs : List BatchItemResult) : List (String × List Nat) :=
  rs.filterMap (fun r =>
    if r.success && truthyDataUrl r.dataUrl then
      match resultBytes r with
      | some bytes => some (r.fileName.getD "null", bytes)
      | none => none
    else none)

/-- Names in order of first occurrence, skipping those already in `seen`. -/
def firstSeenFrom (seen : List String) : List String → List String
  | [] => []
  | n :: rest =>
      if seen.any (fun m => m == n) then firstSeenFrom seen rest
      else n :: firstSeenFrom (seen ++ [n]) rest

theorem foldl_addResult_eq (rs : List BatchItemResult) :
    ∀ acc, rs.foldl addResultToZip acc
      = (zipContribs rs).foldl (fun es c => zipFile es c.1 c.2) acc := by
  induction rs with
  | nil => intro acc; rfl
  | cons r rest ih =>
      intro acc
      by_cases hg : (r.success && truthyDataUrl r.dataUrl) = true
      · obtain ⟨hs, ht⟩ : r.success = true ∧ truthyDataUrl r.dataUrl = true := by simpa using hg
        cases hbytes : resultBytes r with
        | none =>
            have h1 : addResultToZip acc r = acc := by simp [addResultToZip, hg, hbytes]
            have h2 : zipContribs (r :: rest) = zipContribs rest := by
              simp [zipContribs, List.filterMap_cons, hs, ht, hbytes]
            rw [List.foldl_cons, h1, h2, ih acc]
        | some bytes =>
            have h1 : addResultToZip acc r = zipFile acc (r.fileName.getD "null") bytes := by
              simp [addResultToZip, hg, hbytes]
            have h2 : zipContribs (r :: rest)
                = (r.fileName.getD "null", bytes) :: zipContribs rest := by
              simp [zipContribs, List.filterMap_cons, hs, ht, hbytes]
            rw [List.foldl_cons, h1, h2, List.foldl_cons]
            exact ih _
      · have hcond : ¬ (r.success = true ∧ truthyDataUrl r.dataUrl = true) := by
          simpa using hg
        simp only [Bool.not_eq_true] at hg
        have h1 : addResultToZip acc r = acc := by
          simp [addResultToZip, hg]
        have h2 : zipContribs (r :: rest) = zipContribs rest := by
          simp [zipContribs, List.filterMap_cons, hcond]
        rw [List.foldl_cons, h1, h2, ih acc]

theorem zipFile_map_name (es : List ZipEntry) (n : String) (b : List Nat) :
    (zipFile es n b).map ZipEntry.name =
      if es.any (fun e => e.name == n) then es.map ZipEntry.name
      else es.map ZipEntry.name ++ [n] := by
  simp only [zipFile]
  split_ifs with h
  · rw [List.map_map]
    apply List.map_congr_left
    intro e he
    by_cases hc : e.name = n
    · simp [hc]
    · simp [hc]
  · simp

theorem zipBuild_names (cs : List (String × List Nat)) :
    ∀ acc : List ZipEntry,
      (cs.foldl (fun es c => zipFile es c.1 c.2) acc).map ZipEntry.name
        = acc.map ZipEntry.name ++ firstSeenFrom (acc.map ZipEntry.name) (cs.map Prod.fst) := by
  induction cs with
  | nil => intro acc; simp [firstSeenFrom]
  | cons c cs ih =>
      intro acc
      obtain ⟨n, b⟩ := c
      have hbridge : ((acc.map ZipEntry.name).any (fun m => m == n))
          = (acc.any (fun e => e.name == n)) := by
        induction acc with
        | nil => rfl
        | cons a t iht => simp only [List.map_cons, List.any_cons, iht]
      simp only [List.foldl_cons, List.map_cons, firstSeenFrom]
      by_cases h : (acc.any (fun e => e.name == n)) = true
      · rw [ih (zipFile acc n b), zipFile_map_name, if_pos h]
        rw [hbridge, if_pos h]
      · rw [ih (zipFile acc n b), zipFile_map_name, if_neg h]
        rw [hbridge, if_neg h]
        rw [List.append_assoc]
        rfl

theorem zipFile_mem_name_eq (es : List ZipEntry) (n : String) (b : List Nat) :
    ∀ e ∈ zipFile es n b, e.name = n → e.data = b := by
  intro e he hn
  simp only [zipFile] at he
  split_ifs at he with h
  · obtain ⟨a, _, rfl⟩ := List.mem_map.mp he
    by_cases hc : a.name = n
    · simp [hc]
    · rw [if_neg hc] at hn
      exact absurd hn hc
  · rcases List.mem_append.mp he with ha | hb
    · exfalso
      apply h
      rw [List.any_eq_true]
      exact ⟨e, ha, by simp [hn]⟩
    · simp only [List.mem_singleton] at hb
      rw [hb]

theorem zipFile_mem_name_ne (es : List ZipEntry) (n : String) (b : List Nat) :
    ∀ e ∈ zipFile es n b, e.name ≠ n → e ∈ es := by
  intro e he hn
  simp only [zipFile] at he
  split_ifs at he with h
  · obtain ⟨a, ha, rfl⟩ := List.mem_map.mp he
    by_cases hc : a.name = n
    · rw [if_pos hc] at hn ⊢
      exact absurd rfl hn
    · rw [if_neg hc] at hn ⊢
      exact ha
  · rcases List.mem_append.mp he with ha | hb
    · exact ha
    · simp only [List.mem_singleton] at hb
      rw [hb] at hn
      exact absurd rfl hn

theorem zipBuild_data (cs : List (String × List Nat)) :
    ∀ acc : List ZipEntry, ∀ e ∈ cs.foldl (fun es c => zipFile es c.1 c.2) acc,
      (∃ c, cs.reverse.find? (fun c => c.1 == e.name) = some c ∧ e.data = c.2) ∨
      (cs.reverse.find? (fun c => c.1 == e.name) = none ∧ e ∈ acc) := by
  induction cs with
  | nil =>
      intro acc e he
      exact Or.inr ⟨rfl, he⟩
  | cons c cs ih =>
      intro acc e he
      obtain ⟨n, b⟩ := c
      simp only [List.foldl_cons] at he
      rcases ih (zipFile acc n b) e he with ⟨c', hfind, hdata⟩ | ⟨hfind, hmem⟩
      · left
        refine ⟨c', ?_, hdata⟩
        rw [List.reverse_cons, List.find?_append, hfind]
        rfl
      · by_cases hn : n = e.name
        · left
          refine ⟨(n, b), ?_, ?_⟩
          · rw [List.reverse_cons, List.find?_append, hfind]
            simp [hn]
          · exact zipFile_mem_name_eq acc n b e hmem hn.symm
        · right
          constructor
          · rw [List.reverse_cons, List.find?_append, hfind]
            simp [hn]
          · exact zipFile_mem_name_ne acc n b e hmem (fun hc => hn hc.symm)

theorem firstSeenFrom_not_seen (l : List String) :
    ∀ seen m, m ∈ firstSeenFrom seen l → (seen.any (fun x => x == m)) = false := by
  induction l with
  | nil => intro seen m hm; exact absurd hm (List.not_mem_nil m)
  | cons n rest ih =>
      intro seen m hm
      simp only [firstSeenFrom] at hm
      split_ifs at hm with h
      · exact ih seen m hm
      · rcases List.mem_cons.mp hm with rfl | hm'
        · simp only [Bool.not_eq_true] at h
          exact h
        · have := ih (seen ++ [n]) m hm'
          rw [List.any_append] at this
          exact (Bool.or_eq_false_iff.mp this).1

theorem firstSeenFrom_nodup (l : List String) :
    ∀ seen, (firstSeenFrom seen l).Nodup := by
  induction l with
  | nil => intro seen; exact List.nodup_nil
  | cons n rest ih =>
      intro seen
      simp only [firstSeenFrom]
      split_ifs with h
      · exact ih seen
      · refine List.nodup_cons.mpr ⟨?_, ih (seen ++ [n])⟩
        intro hmem
        have := firstSeenFrom_not_seen rest (seen ++ [n]) n hmem
        rw [List.any_append] at this
        have h2 := (Bool.or_eq_false_iff.mp this).2
        simp at h2

/-- A third successful result with a different derived name (`b.jpg`,
bytes `BCD`), used to surround a collision with unrelated entries. -/
def successC : BatchItemResult :=
  { originalName := some "b.png", fileName := some "b.jpg",
    dataUrl := some "data:image/jpeg;base64,QkNE",
    originalSize := some 11, stats := some { base64 := "data:image/jpeg;base64,QkNE", originalSize := 3 },
    success := true, error := none }

/-- Claim C8, amended: in every report, the archive holds exactly one
entry per contributed name (the name list is duplicate-free), the entries
appear in the order in which their names were FIRST contributed, and each
entry's bytes are those of the LAST result contributing that name — so
two or more successes deriving the same filename collapse into a single
entry, sitting where the first of them was added, holding the last one's
bytes; nothing ever appends a numeric suffix. -/
theorem createZip_collision (rs : List BatchItemResult) :
    ((createZipEntries rs).map ZipEntry.name).Nodup ∧
    (createZipEntries rs).map ZipEntry.name
      = firstSeenFrom [] ((zipContribs rs).map Prod.fst) ∧
    (∀ e ∈ createZipEntries rs,
      ∃ c, (zipContribs rs).reverse.find? (fun c => c.1 == e.name) = some c ∧ e.data = c.2) := by
  have hbuild : createZipEntries rs
      = (zipContribs rs).foldl (fun es c => zipFile es c.1 c.2) [] :=
    foldl_addResult_eq rs []
  have hnames : (createZipEntries rs).map ZipEntry.name
      = firstSeenFrom [] ((zipContribs rs).map Prod.fst) := by
    rw [hbuild]
    have h := zipBuild_names (zipContribs rs) []
    simpa using h
  refine ⟨?_, hnames, ?_⟩
  · rw [hnames]
    exact firstSeenFrom_nodup _ []
  · intro e he
    rw [hbuild] at he
    rcases zipBuild_data (zipContribs rs) [] e he with ⟨c, hf, hd⟩ | ⟨_, habs⟩
    · exact ⟨c, hf, hd⟩
    · exact absurd habs (List.not_mem_nil e)

example : createZipEntries [successC, successA, failedResult, badSuccess, successB]
    = [{ name := "b.jpg", data := [66, 67, 68] }, { name := "a.jpg", data := [65, 66, 68] }] := by
  decide

/-- Claim C8, witness: the general statement evaluated on a five-result
report — two `a.jpg` successes around unrelated entries — whose archive
has duplicate-free names in first-seen order, and whose `a.jpg` entry
carries the later bytes `ABD`. -/
theorem createZip_collision_witness :
    ((createZipEntries [successC, successA, failedResult, badSuccess, successB]).map
        ZipEntry.name).Nodup ∧
    (createZipEntries [successC, successA, failedResult, badSuccess, successB]).map ZipEntry.name
      = firstSeenFrom []
          ((zipContribs [successC, successA, failedResult, badSuccess, successB]).map Prod.fst) ∧
    (∃ c, (zipContribs [successC, successA, failedResult, badSuccess, successB]).reverse.find?
        (fun c => c.1 == "a.jpg") = some c ∧ ([65, 66, 68] : List Nat) = c.2) :=
  ⟨(createZip_collision [successC, successA, failedResult, badSuccess, successB]).1,
   (createZip_collision [successC, successA, failedResult, badSuccess, successB]).2.1,
   (createZip_collision [successC, successA, failedResult, badSuccess, successB]).2.2
     { name := "a.jpg", data := [65, 66, 68] } (by decide)⟩

end Compressing
